import Mathlib

/-!
# irlb: implicitly restarted Lanczos bidiagonalization (src/src/irlb.c)

A shallow embedding of the C routine `irlb`.

* A `double *` buffer is a function from (signed) offsets to values; the
  distinct buffers handed to `irlb` are distinct fields of `Mem`, so they
  do not alias.  `double` values are idealised as rationals: the routine
  itself only compares them, negates them, takes reciprocals and forms one
  product, everything else happens inside the numeric kernels.
* The BLAS/LAPACK routines and the two helpers `orthog` and `convtests`
  (declared in `irlb.h`, defined outside `irlb.c`) are the fields of
  `Kernels`: every theorem holds for all kernels.  A kernel returns the new
  contents of the region it writes; the embedding stores them at the
  pointer that the C call passes.
* `int` values are integers (no overflow is modelled).
* `State.log` is a ghost trace of the calls made so far, most recent first.
-/

namespace Irlb

/-- A flat buffer of doubles, addressed by offset. -/
abbrev Buf := Int → ℚ

/-- The pointer `p + off`. -/
def view (p : Buf) (off : Int) : Buf := fun i => p (i + off)

/-- Overwrites `dst[off .. off + len)` with `src[0 .. len)`. -/
def store (dst : Buf) (off len : Int) (src : Buf) : Buf :=
  fun i => if off ≤ i ∧ i < off + len then src (i - off) else dst i

/-- The C call `memmove (dst + doff, src + soff, len * sizeof (double))`. -/
def memmove (dst : Buf) (doff : Int) (src : Buf) (soff len : Int) : Buf :=
  store dst doff len (view src soff)

/-- The C call `memset (dst, 0, len * sizeof (double))`. -/
def memset (dst : Buf) (len : Int) : Buf :=
  store dst 0 len (fun _ => 0)

/-- The assignment `b[i] = x`. -/
def poke (b : Buf) (i : Int) (x : ℚ) : Buf :=
  fun t => if t = i then x else b t

/-- The loop `for (i = 0; i < hi; ++i) s = body i s`. -/
def forUpTo {σ : Type} (hi : Int) (body : Int → σ → σ) (s : σ) : σ :=
  (List.range hi.toNat).foldl (fun acc (i : Nat) => body (i : Int) acc) s

/-- What `dgesvd` leaves behind: the overwritten input `a` (the left
singular vectors, job "O"), the singular values `s`, the right factor `vt`
and the scratch array `wk`. -/
structure SvdOut where
  a : Buf
  s : Buf
  vt : Buf
  wk : Buf

/-- The routines `irlb` calls and that are defined outside `irlb.c`.
Arguments are in the order of the C call, without the increments (always
1) and the output pointers. -/
structure Kernels where
  /-- The call `dnrm2 (&n, x, &inc)`. -/
  dnrm2 : Int → Buf → ℚ
  /-- The call `dscal (&n, &a, x, &inc)`: the new `x[0 .. n)`. -/
  dscal : Int → ℚ → Buf → Buf
  /-- The call `daxpy (&n, &a, x, &inc, y, &inc)`: the new `y[0 .. n)`. -/
  daxpy : Int → ℚ → Buf → Buf → Buf
  /-- The call `dgemm (ta, tb, &m, &n, &k, &alpha, A, &lda, B, &ldb, &beta, C, &ldc)`:
  the new `C[0 .. ldc * n)`. -/
  dgemm : Char → Char → Int → Int → Int → ℚ → Buf → Int → Buf → Int → ℚ → Buf → Int → Buf
  /-- The call `dgesvd (jobu, jobvt, &m, &n, a, &lda, s, u, &ldu, vt, &ldvt, wk, &lwork, &info)`
  with `u = a`. -/
  dgesvd : Char → Char → Int → Int → Buf → Int → Buf → Int → SvdOut
  /-- The call `orthog (X, Y, T, xm, xn, yn)` of the helper declared in
  `irlb.h`, which orthogonalises `Y` against the columns of `X` with `T` as
  scratch: the new `Y[0 .. xm * yn)` and the new `T[0 .. xn * yn)`. -/
  orthog : Buf → Buf → Buf → Int → Int → Int → Buf × Buf
  /-- The call `convtests (j, nu, tol, Smax, res, &k, &converged)` of the
  helper declared in `irlb.h`, given the values of `k` and `converged`
  before the call: their values after it. -/
  convtests : Int → Int → ℚ → ℚ → Buf → Int → Int → Int × Int

/-- The calls recorded in the ghost trace. -/
inductive Event where
  /-- Line 152: the norm `d` of the seed. -/
  | nrmSeed (d : ℚ)
  /-- After lines 148-159: outer iteration `iter` starts its pass at column `j`. -/
  | pass (iter j : Int)
  /-- Lines 169 and 210: `W[:, col] = A * V[:, col]`. -/
  | matvec (iter col : Int)
  /-- Line 192: `F = t(A) * W[:, col]`. -/
  | matvecT (iter col : Int)
  /-- Lines 176 and 220: `orthog (W, W + col * m, T, m, ncols, 1)`. -/
  | orthogW (iter col ncols : Int)
  /-- Line 197: `orthog (V, F, T, n, ncols, 1)`. -/
  | orthogF (iter ncols : Int)
  /-- Line 179: the norm `S` of the first column `j` of a pass. -/
  | nrmW0 (iter j : Int) (S : ℚ)
  /-- Line 198: the norm `R_F` of the residual at column `j`. -/
  | nrmF (iter j : Int) (R_F : ℚ)
  /-- Line 221: the norm `S` of the new column `col = j + 1`. -/
  | nrmW (iter col : Int) (S : ℚ)
  /-- Line 246: `convtests` was called with `j` and left `k`, `converged`. -/
  | conv (iter j k converged : Int)
  /-- Lines 253-273: the restart step with `k` retained columns. -/
  | restart (iter k : Int)
  deriving DecidableEq

/-- The scalar arguments of `irlb` and the read-only matrix. -/
structure Args where
  A : Buf
  m : Int
  n : Int
  nu : Int
  work : Int
  maxit : Int
  tol : ℚ
  eps : ℚ
  lwork : Int

/-- The caller's memory: the buffers passed to `irlb` and the two cells
behind `int *ITER` and `int *MPROD`. -/
structure Mem where
  s : Buf
  U : Buf
  V : Buf
  V1 : Buf
  U1 : Buf
  W : Buf
  F : Buf
  B : Buf
  BU : Buf
  BV : Buf
  BS : Buf
  BW : Buf
  res : Buf
  T : Buf
  ITER : Int
  MPROD : Int

/-- The memory together with the locals of `irlb` that live across
statements, and the ghost trace. -/
structure State extends Mem where
  S : ℚ
  R_F : ℚ
  Smax : ℚ
  j : Int
  k : Int
  converged : Int
  iter : Int
  mprod : Int
  log : List Event

/-- The locals declared without an initialiser hold indeterminate values
at entry. -/
structure Junk where
  S : ℚ
  R_F : ℚ
  j : Int
  converged : Int

/-- Lines 130-138: the state at entry. -/
def enter (mem : Mem) (u : Junk) : State :=
  { mem with
    S := u.S, R_F := u.R_F, Smax := 0, j := u.j, k := 0, converged := u.converged,
    iter := 0, mprod := 0, log := [] }

/-- A statement sequence either falls through with a state or executes
`return code`. -/
abbrev Flow (α : Type) := Except (Int × State) α

/-- The call `orthog (W, W + col * m, T, m, ncols, 1)` of lines 176 and 220. -/
def orthogW (K : Kernels) (a : Args) (st : State) (col ncols : Int) : State :=
  let r := K.orthog st.W (view st.W (col * a.m)) st.T a.m ncols 1
  { st with
    W := store st.W (col * a.m) (a.m * 1) r.1
    T := store st.T 0 (ncols * 1) r.2
    log := Event.orthogW st.iter col ncols :: st.log }

/-- Lines 148-159: choose the first column of the pass; in the first
outer iteration normalise the seed. -/
def startPass (K : Kernels) (a : Args) (st : State) : Flow State :=
  let st := { st with j := 0 }
  if st.iter = 0 then
    let d := K.dnrm2 a.n st.V
    let st := { st with log := Event.nrmSeed d :: st.log }
    if d < 2 * a.eps then .error (-1, st)
    else
      let d := 1 / d
      .ok { st with
            V := store st.V 0 a.n (K.dscal a.n d st.V)
            log := Event.pass st.iter st.j :: st.log }
  else
    .ok { st with j := st.k, log := Event.pass st.iter st.k :: st.log }

/-- Lines 167-185: the first column of W of the pass. -/
def firstColumn (K : Kernels) (a : Args) (st : State) : Flow State :=
  let j := st.j
  let st := { st with
    W := store st.W (j * a.m) a.m
          (K.dgemm 'n' 'n' a.m 1 a.n 1 a.A a.m (view st.V (j * a.n)) a.n 0 (view st.W (j * a.m)) a.m)
    mprod := st.mprod + 1
    log := Event.matvec st.iter j :: st.log }
  let st := if st.iter > 0 then orthogW K a st j j else st
  let S := K.dnrm2 a.m (view st.W (j * a.m))
  let st := { st with S := S, log := Event.nrmW0 st.iter j S :: st.log }
  if S < a.tol ∧ j = 1 then .error (-4, st)
  else if S < a.eps then .error (-5, st)
  else
    let SS := 1 / S
    .ok { st with W := store st.W (j * a.m) a.m (K.dscal a.m SS (view st.W (j * a.m))) }

/-- Lines 190-198: the residual F at column `j` and its norm. -/
def residual (K : Kernels) (a : Args) (st : State) : State :=
  let j := st.j
  let st := { st with
    F := store st.F 0 a.n
          (K.dgemm 't' 'n' a.n 1 a.m 1 a.A a.m (view st.W (j * a.m)) a.m 0 st.F a.n)
    mprod := st.mprod + 1
    log := Event.matvecT st.iter j :: st.log }
  let SS := -st.S
  let st := { st with F := store st.F 0 a.n (K.daxpy a.n SS (view st.V (j * a.n)) st.F) }
  let r := K.orthog st.V st.F st.T a.n (j + 1) 1
  let st := { st with
    F := store st.F 0 (a.n * 1) r.1
    T := store st.T 0 ((j + 1) * 1) r.2
    log := Event.orthogF st.iter (j + 1) :: st.log }
  let R_F := K.dnrm2 a.n st.F
  { st with R_F := R_F, log := Event.nrmF st.iter j R_F :: st.log }

/-- Lines 201-225: the branch `j + 1 < work` of the Lanczos loop. -/
def extend (K : Kernels) (a : Args) (st : State) : Flow State :=
  let j := st.j
  let R_F := st.R_F
  if R_F < a.eps then .error (-5, st)
  else
    let R := 1 / R_F
    let st := { st with V := memmove st.V ((j + 1) * a.n) st.F 0 a.n }
    let st := { st with
      V := store st.V ((j + 1) * a.n) a.n (K.dscal a.n R (view st.V ((j + 1) * a.n))) }
    let st := { st with B := poke st.B (j * a.work + j) st.S }
    let st := { st with B := poke st.B ((j + 1) * a.work + j) R_F }
    let st := { st with
      W := store st.W ((j + 1) * a.m) a.m
            (K.dgemm 'n' 'n' a.m 1 a.n 1 a.A a.m (view st.V ((j + 1) * a.n)) a.n 0
              (view st.W ((j + 1) * a.m)) a.m)
      mprod := st.mprod + 1
      log := Event.matvec st.iter (j + 1) :: st.log }
    let R := -R_F
    let st := { st with
      W := store st.W ((j + 1) * a.m) a.m
            (K.daxpy a.m R (view st.W (j * a.m)) (view st.W ((j + 1) * a.m))) }
    let st := if st.iter > 1 then orthogW K a st (j + 1) (j + 1) else st
    let S := K.dnrm2 a.m (view st.W ((j + 1) * a.m))
    let st := { st with S := S, log := Event.nrmW st.iter (j + 1) S :: st.log }
    if S < a.eps then .error (-5, st)
    else
      let SS := 1 / S
      .ok { st with
            W := store st.W ((j + 1) * a.m) a.m (K.dscal a.m SS (view st.W ((j + 1) * a.m))) }

/-- Lines 190-231: the body of `while (j < work)`. -/
def lanczosStep (K : Kernels) (a : Args) (st : State) : Flow State :=
  let st := residual K a st
  if st.j + 1 < a.work then
    match extend K a st with
    | .error r => .error r
    | .ok st => .ok { st with j := st.j + 1 }
  else
    let st := { st with B := poke st.B (st.j * a.work + st.j) st.S }
    .ok { st with j := st.j + 1 }

/-- Lines 188-232: `while (j < work)`, unrolled at most `fuel` times;
`irlb` supplies `work - j` as fuel, the exact number of passes left. -/
def lanczos (K : Kernels) (a : Args) : Nat → State → Flow State
  | 0, st => .ok st
  | fuel + 1, st =>
    if st.j < a.work then
      match lanczosStep K a st with
      | .error r => .error r
      | .ok st => lanczos K a fuel st
    else .ok st

/-- Lines 234-246: the SVD of B, the residual estimates, `Smax` and the
convergence test. -/
def ritz (K : Kernels) (a : Args) (st : State) : State :=
  let st := { st with BU := memmove st.BU 0 st.B 0 (a.work * a.work) }
  let o := K.dgesvd 'O' 'A' a.work a.work st.BU a.work st.BW a.lwork
  let st := { st with
    BU := store st.BU 0 (a.work * a.work) o.a
    BS := store st.BS 0 a.work o.s
    BV := store st.BV 0 (a.work * a.work) o.vt
    BW := store st.BW 0 a.lwork o.wk }
  let R := 1 / st.R_F
  let st := { st with F := store st.F 0 a.n (K.dscal a.n R st.F) }
  let st := { st with
    res := forUpTo st.j (fun kk res => poke res kk (st.R_F * st.BU (kk * a.work + (st.j - 1)))) st.res }
  let st := { st with
    Smax := forUpTo st.j (fun jj Smax => if st.BS jj > Smax then st.BS jj else Smax) st.Smax }
  let c := K.convtests st.j a.nu a.tol st.Smax st.res st.k st.converged
  { st with k := c.1, converged := c.2, log := Event.conv st.iter st.j c.1 c.2 :: st.log }

/-- Lines 253-273: the restart step. -/
def restart (K : Kernels) (a : Args) (st : State) : State :=
  let k := st.k
  let j := st.j
  let st := { st with
    V1 := store st.V1 0 (a.n * k) (K.dgemm 'n' 't' a.n k j 1 st.V a.n st.BV a.work 0 st.V1 a.n)
    log := Event.restart st.iter k :: st.log }
  let st := { st with V := memmove st.V 0 st.V1 0 (a.n * k) }
  let st := { st with V := memmove st.V (a.n * k) st.F 0 a.n }
  let st := { st with B := memset st.B (a.work * a.work) }
  let st := { st with
    B := forUpTo k
          (fun jj B => poke (poke B (jj * a.work + jj) (st.BS jj)) (k * a.work + jj) (st.res jj))
          st.B }
  let st := { st with
    U1 := store st.U1 0 (a.m * k) (K.dgemm 'n' 'n' a.m k j 1 st.W a.m st.BU a.work 0 st.U1 a.m) }
  let st := { st with W := memmove st.W 0 st.U1 0 (a.m * k) }
  { st with iter := st.iter + 1 }

/-- Lines 148-232: one Lanczos pass, from the choice of the first column
to the end of `while (j < work)`. -/
def lanczosPass (K : Kernels) (a : Args) (st : State) : Flow State :=
  match startPass K a st with
  | .error r => .error r
  | .ok st =>
    match firstColumn K a st with
    | .error r => .error r
    | .ok st => lanczos K a (a.work - st.j).toNat st

/-- Lines 148-273: the body of `while (iter < maxit)`; the flag says
whether the loop was left by `break`. -/
def outerBody (K : Kernels) (a : Args) (st : State) : Flow (Bool × State) :=
  match lanczosPass K a st with
  | .error r => .error r
  | .ok st =>
    let st := ritz K a st
    if st.converged = 1 then .ok (true, { st with iter := st.iter + 1 })
    else .ok (false, restart K a st)

/-- Lines 146-274: `while (iter < maxit)`, unrolled at most `fuel` times;
`irlb` supplies `maxit` as fuel. -/
def mainLoop (K : Kernels) (a : Args) : Nat → State → Flow State
  | 0, st => .ok st
  | fuel + 1, st =>
    if st.iter < a.maxit then
      match outerBody K a st with
      | .error r => .error r
      | .ok (true, st) => .ok st
      | .ok (false, st) => mainLoop K a fuel st
    else .ok st

/-- Lines 277-288: the results and the two counters. -/
def results (K : Kernels) (a : Args) (st : State) : State :=
  let st := { st with s := memmove st.s 0 st.BS 0 a.nu }
  let st := { st with
    U := store st.U 0 (a.m * a.nu)
          (K.dgemm 'n' 'n' a.m a.nu a.work 1 st.W a.m st.BU a.work 0 st.U a.m) }
  let st := { st with
    V1 := store st.V1 0 (a.n * a.nu)
          (K.dgemm 'n' 't' a.n a.nu a.work 1 st.V a.n st.BV a.work 0 st.V1 a.n) }
  let st := { st with V := memmove st.V 0 st.V1 0 (a.n * a.nu) }
  { st with ITER := st.iter, MPROD := st.mprod }

/-- What a call of `irlb` leaves: the returned value and the final state. -/
structure Result where
  ret : Int
  st : State

/-- Line 144: the state in which the main loop is entered. -/
def start (a : Args) (mem : Mem) (u : Junk) : State :=
  let st := enter mem u
  { st with B := memset st.B (a.work * a.work) }

/-- The routine `irlb` (lines 107-291). -/
def irlb (K : Kernels) (a : Args) (mem : Mem) (u : Junk) : Result :=
  if a.work < 4 ∨ a.n < 4 ∨ a.m < 4 then ⟨-1, enter mem u⟩
  else
    match mainLoop K a a.maxit.toNat (start a mem u) with
    | .error (code, st) => ⟨code, st⟩
    | .ok st =>
      let st := results K a st
      ⟨if st.converged = 1 then 0 else -2, st⟩

/-! ## Reading the trace -/

/-- The first columns of the passes in the trace, most recent first: one
entry per outer iteration that got past lines 148-159. -/
def starts : List Event → List Int
  | [] => []
  | Event.pass _ j :: l => j :: starts l
  | _ :: l => starts l

/-- The matrix-vector products of a pass that starts at column `j`: lines
169, 192 and 210. -/
def passCost (work j : Int) : Int :=
  if j < work then 2 * (work - j) else 1

/-- The event is a norm on which `irlb` returns -5: `S < eps` at line 182
(reached only when line 180 did not return), `R_F < eps` at line 201
(tested only when `j + 1 < work`), `S < eps` at line 222. -/
def Event.dependent (a : Args) : Event → Prop
  | Event.nrmW0 _ j S => ¬(S < a.tol ∧ j = 1) ∧ S < a.eps
  | Event.nrmF _ j R_F => j + 1 < a.work ∧ R_F < a.eps
  | Event.nrmW _ _ S => S < a.eps
  | _ => False

/-- The event is logged inside a Lanczos pass (lines 167-232). -/
def Event.inner : Event → Prop
  | Event.matvec _ _ => True
  | Event.matvecT _ _ => True
  | Event.orthogW _ _ _ => True
  | Event.orthogF _ _ => True
  | Event.nrmW0 _ _ _ => True
  | Event.nrmF _ _ _ => True
  | Event.nrmW _ _ _ => True
  | _ => False

/-- The event on which `irlb` returns `code` early: the seed norm at line
153, the first norm of a pass at line 180, or a norm as in `dependent`. -/
def Event.fault (a : Args) (code : Int) (e : Event) : Prop :=
  (code = -1 ∧ ∃ d, e = Event.nrmSeed d ∧ d < 2 * a.eps) ∨
  (code = -4 ∧ ∃ it S, e = Event.nrmW0 it 1 S ∧ S < a.tol) ∨
  (code = -5 ∧ e.dependent a)

/-! ## Predicates on states and traces -/

/-- The events are logged inside a pass and none of them makes `irlb`
return -5. -/
def Calm (a : Args) (new : List Event) : Prop :=
  ∀ e ∈ new, e.inner ∧ ¬e.dependent a

/-- The state `st'` is reached from `st` inside a Lanczos pass without a
return. -/
structure Within (a : Args) (st st' : State) : Prop where
  iter : st'.iter = st.iter
  k : st'.k = st.k
  converged : st'.converged = st.converged
  log : ∃ new, st'.log = new ++ st.log ∧ Calm a new

/-- The state `st'` is reached from `st` inside a Lanczos pass by the
statement `return c`. -/
def Faulted (a : Args) (st : State) (c : Int) (st' : State) : Prop :=
  ∃ e new, st'.log = e :: (new ++ st.log) ∧ Calm a new ∧ e.fault a c

/-- The trace of a pass that did not return: the events of the pass, on
top of the `pass` event and, in the first outer iteration, the seed norm. -/
def PassLog (a : Args) (it j₀ : Int) (old new : List Event) : Prop :=
  ∃ inner pre, new = inner ++ Event.pass it j₀ :: (pre ++ old) ∧ Calm a inner ∧
    (pre = [] ∨ ∃ d, pre = [Event.nrmSeed d])

/-- The trace at an early return: the event on which the routine
returned, on top of events that are not dependent. -/
def FaultLog (a : Args) (c : Int) (old new : List Event) : Prop :=
  ∃ e mid, new = e :: (mid ++ old) ∧ e.fault a c ∧ ∀ x ∈ mid, ¬x.dependent a

/-- What holds of the counters and the trace at the head of the main loop
and when the loop is left. -/
structure Counted (a : Args) (st : State) : Prop where
  iters : ((starts st.log).length : Int) = st.iter
  first : st.iter ≠ 0 → ∃ l, starts st.log = l ++ [0]
  cost : st.mprod = ((starts st.log).map (passCost a.work)).sum
  quiet : ∀ e ∈ st.log, ¬e.dependent a
  bound : st.iter = 0 ∨ st.iter ≤ a.maxit

/-- The invariant of `while (iter < maxit)`. -/
structure Inv (K : Kernels) (a : Args) (st : State) extends Counted a st : Prop where
  unconverged : ∀ it j k c, Event.conv it j k c ∈ st.log → c ≠ 1
  origin : st.iter ≠ 0 → ∃ q p, q.iter + 1 = st.iter ∧ lanczosPass K a q = .ok p ∧
    (ritz K a p).converged ≠ 1 ∧ st = restart K a (ritz K a p)

/-- The state in which the main loop is left by `break`. -/
structure Broke (a : Args) (fs : State) extends Counted a fs : Prop where
  conv : fs.converged = 1
  pos : 1 ≤ fs.iter
  head : ∃ j k rest, fs.log = Event.conv (fs.iter - 1) j k 1 :: rest ∧
    ∀ it j k c, Event.conv it j k c ∈ rest → c ≠ 1

/-! ## A small instance of the kernels

Stand-ins on which a run can be evaluated: `dscal` and `daxpy` are exact,
`dnrm2` adds absolute values (the Euclidean norm of a vector with at most
one non-zero entry), the other routines return fixed answers. -/

namespace Demo

/-- The sum of `|x i|` for `i < n`. -/
def sumAbs : Nat → Buf → ℚ
  | 0, _ => 0
  | n + 1, x => sumAbs n x + |x n|

/-- Stand-in for `dnrm2`. -/
def dnrm2 (n : Int) (x : Buf) : ℚ := sumAbs n.toNat x

/-- The routine `dscal`, exactly. -/
def dscal (_ : Int) (c : ℚ) (x : Buf) : Buf := fun i => c * x i

/-- The routine `daxpy`, exactly. -/
def daxpy (_ : Int) (c : ℚ) (x y : Buf) : Buf := fun i => c * x i + y i

/-- Stand-in for `dgemm`: whatever the operands, a product that is not
transposed has the columns (1, 2, 3, ...) and a transposed one has all
entries 1. -/
def dgemm (ta _ : Char) (_ _ _ : Int) (_ : ℚ) (_ : Buf) (_ : Int) (_ : Buf) (_ : Int)
    (_ : ℚ) (_ : Buf) (ldc : Int) : Buf :=
  fun i => if ta = 'n' then ((i % ldc + 1 : Int) : ℚ) else 1

/-- The routine `dgemm` for a matrix `A` that is zero (and `beta = 0`). -/
def dgemmZero (_ _ : Char) (_ _ _ : Int) (_ : ℚ) (_ : Buf) (_ : Int) (_ : Buf) (_ : Int)
    (_ : ℚ) (_ : Buf) (_ : Int) : Buf :=
  fun _ => 0

/-- Stand-in for `orthog`: leaves `Y` and `T` as they are. -/
def orthog (_ Y T : Buf) (_ _ _ : Int) : Buf × Buf := (Y, T)

/-- The buffer that starts with the entries of `l` and is zero elsewhere. -/
def ofList (l : List ℚ) : Buf := fun i => if 0 ≤ i then l.getD i.toNat 0 else 0

/-- An orthogonal 4 x 4 matrix. -/
def hadamard : Buf :=
  ofList [1/2, 1/2, 1/2, 1/2, 1/2, -1/2, 1/2, -1/2, 1/2, 1/2, -1/2, -1/2, 1/2, -1/2, -1/2, 1/2]

/-- Stand-in for `dgesvd`: singular values 3, 2, 1, 1/2 and both factors
equal to `hadamard`. -/
def dgesvd (_ _ : Char) (_ _ : Int) (_ : Buf) (_ : Int) (wk : Buf) (_ : Int) : SvdOut :=
  { a := hadamard, s := ofList [3, 2, 1, 1/2], vt := hadamard, wk := wk }

/-- The number of leading candidates among the first `n` whose residual
is below `bound`. -/
def lead : Nat → ℚ → Buf → Nat
  | 0, _, _ => 0
  | n + 1, bound, res =>
    if lead n bound res = n ∧ |res n| < bound then n + 1 else lead n bound res

/-- Modelled from the spec: `convtests` is declared in `irlb.h` and defined
outside `irlb.c`.  A candidate has converged when its residual is below
`tol * Smax`; the run has converged when the first `nu` candidates have;
otherwise `k` is `nu` or the number of leading converged candidates,
whichever is larger. -/
def convtests (j nu : Int) (tol Smax : ℚ) (res : Buf) (k _ : Int) : Int × Int :=
  let c : Int := lead j.toNat (tol * Smax) res
  if nu ≤ c then (k, 1) else (max nu c, 0)

/-- The stand-in kernels. -/
def kernels : Kernels :=
  ⟨dnrm2, dscal, daxpy, dgemm, dgesvd, orthog, convtests⟩

/-- The kernels for a matrix `A` that is zero. -/
def zeroKernels : Kernels :=
  ⟨dnrm2, dscal, daxpy, dgemmZero, dgesvd, orthog, convtests⟩

/-- The buffer of zeros. -/
def zeros : Buf := fun _ => 0

/-- A 5 x 5 problem with `nu = 1`, `work = 4` and `eps = 1e-6`. -/
def args (maxit : Int) (tol : ℚ) : Args :=
  ⟨zeros, 5, 5, 1, 4, maxit, tol, 1/1000000, 28⟩

/-- The caller's memory: the seed is the first unit vector, the cells
behind `ITER` and `MPROD` hold 77 and 99. -/
def mem : Mem :=
  ⟨zeros, zeros, ofList [1], zeros, zeros, zeros, zeros, zeros, zeros, zeros, zeros, zeros,
    zeros, zeros, 77, 99⟩

/-- The indeterminate locals. -/
def junk : Junk := ⟨0, 0, 0, 0⟩

end Demo

/-- The 5 x 5 problem with `work = 3`. -/
def Demo.smallArgs : Args :=
  ⟨Demo.zeros, 5, 5, 1, 3, 10, 1/10, 1/1000000, 21⟩

/-- The caller's memory with a seed that is zero. -/
def Demo.zeroSeed : Mem :=
  { Demo.mem with V := Demo.zeros }

/-- The run rejected for `work = 3`. -/
def Demo.rejected : Result :=
  irlb Demo.kernels Demo.smallArgs Demo.mem Demo.junk

/-- The run whose seed is zero. -/
def Demo.nullSeed : Result :=
  irlb Demo.kernels (Demo.args 10 (1/10)) Demo.zeroSeed Demo.junk

/-- The run on a matrix that is zero, with `tol = 1/10`. -/
def Demo.nullMatrix : Result :=
  irlb Demo.zeroKernels (Demo.args 10 (1/10)) Demo.mem Demo.junk

/-- The run with `maxit = 1` and `tol = 1/10`: one outer iteration, which
does not converge. -/
def Demo.exhausted : Result :=
  irlb Demo.kernels (Demo.args 1 (1/10)) Demo.mem Demo.junk

/-- The run with `maxit = 3` and `tol = 2`: it converges in its first
outer iteration. -/
def Demo.converging : Result :=
  irlb Demo.kernels (Demo.args 3 2) Demo.mem Demo.junk

/-! ## Lemmas on the phases of an outer iteration -/

theorem calm_nil (a : Args) : Calm a [] := by
  intro e he; cases he

theorem calm_cons {a : Args} {e : Event} {l : List Event} (h1 : e.inner) (h2 : ¬e.dependent a)
    (h : Calm a l) : Calm a (e :: l) := by
  intro x hx
  rcases List.mem_cons.1 hx with rfl | hx
  · exact ⟨h1, h2⟩
  · exact h x hx

theorem calm_append {a : Args} {l₁ l₂ : List Event} (h₁ : Calm a l₁) (h₂ : Calm a l₂) :
    Calm a (l₁ ++ l₂) := by
  intro x hx
  rcases List.mem_append.1 hx with hx | hx
  · exact h₁ x hx
  · exact h₂ x hx

theorem within_refl (a : Args) (st : State) : Within a st st :=
  ⟨rfl, rfl, rfl, [], rfl, calm_nil a⟩

theorem within_trans {a : Args} {s₁ s₂ s₃ : State} (h₁ : Within a s₁ s₂) (h₂ : Within a s₂ s₃) :
    Within a s₁ s₃ := by
  obtain ⟨n₁, e₁, c₁⟩ := h₁.log
  obtain ⟨n₂, e₂, c₂⟩ := h₂.log
  refine ⟨h₂.iter.trans h₁.iter, h₂.k.trans h₁.k, h₂.converged.trans h₁.converged,
    n₂ ++ n₁, ?_, calm_append c₂ c₁⟩
  rw [e₂, e₁, List.append_assoc]

theorem faulted_after {a : Args} {s₁ s₂ s₃ : State} {c : Int} (h₁ : Within a s₁ s₂)
    (h₂ : Faulted a s₂ c s₃) : Faulted a s₁ c s₃ := by
  obtain ⟨n₁, e₁, c₁⟩ := h₁.log
  obtain ⟨e, n₂, e₂, c₂, hf⟩ := h₂
  refine ⟨e, n₂ ++ n₁, ?_, calm_append c₂ c₁, hf⟩
  rw [e₂, e₁, List.append_assoc]

theorem startPass_ok {K : Kernels} {a : Args} {st st' : State}
    (h : startPass K a st = .ok st') :
    st'.iter = st.iter ∧ st'.k = st.k ∧ st'.converged = st.converged ∧ st'.mprod = st.mprod ∧
    st'.j = (if st.iter = 0 then 0 else st.k) ∧
    (st'.log = Event.pass st.iter st'.j :: st.log ∨
      ∃ d, st'.log = Event.pass st.iter st'.j :: Event.nrmSeed d :: st.log) := by
  unfold startPass at h
  simp only at h
  split_ifs at h with h0 h1
  · cases h; simp [h0]
  · cases h; simp [h0]

theorem startPass_error {K : Kernels} {a : Args} {st st' : State} {c : Int}
    (h : startPass K a st = .error (c, st')) :
    c = -1 ∧ ∃ d, st'.log = Event.nrmSeed d :: st.log ∧ d < 2 * a.eps := by
  unfold startPass at h
  simp only at h
  split_ifs at h with h0 h1
  · cases h; exact ⟨rfl, _, rfl, h1⟩

theorem firstColumn_ok {K : Kernels} {a : Args} {st st' : State}
    (h : firstColumn K a st = .ok st') :
    Within a st st' ∧ st'.mprod = st.mprod + 1 ∧ st'.j = st.j := by
  unfold firstColumn at h
  simp only at h
  split_ifs at h with hi h4 h5 h4 h5
  · cases h
    refine ⟨⟨rfl, rfl, rfl, ?_⟩, rfl, rfl⟩
    refine ⟨[_, _, _], rfl, ?_⟩
    refine calm_cons trivial ?_ (calm_cons trivial (fun h => h) (calm_cons trivial (fun h => h) (calm_nil a)))
    simp only [Event.dependent]
    exact fun h => h5 h.2
  · cases h
    refine ⟨⟨rfl, rfl, rfl, ?_⟩, rfl, rfl⟩
    refine ⟨[_, _], rfl, ?_⟩
    refine calm_cons trivial ?_ (calm_cons trivial (fun h => h) (calm_nil a))
    simp only [Event.dependent]
    exact fun h => h5 h.2

theorem firstColumn_error {K : Kernels} {a : Args} {st st' : State} {c : Int}
    (h : firstColumn K a st = .error (c, st')) : Faulted a st c st' := by
  unfold firstColumn at h
  simp only at h
  split_ifs at h with hi h4 h5 h4 h5
  · cases h
    refine ⟨_, [_, _], rfl, calm_cons trivial (fun h => h) (calm_cons trivial (fun h => h) (calm_nil a)), ?_⟩
    exact Or.inr (Or.inl ⟨rfl, _, _, by rw [h4.2], h4.1⟩)
  · cases h
    refine ⟨_, [_, _], rfl, calm_cons trivial (fun h => h) (calm_cons trivial (fun h => h) (calm_nil a)), ?_⟩
    exact Or.inr (Or.inr ⟨rfl, h4, h5⟩)
  · cases h
    refine ⟨_, [_], rfl, calm_cons trivial (fun h => h) (calm_nil a), ?_⟩
    exact Or.inr (Or.inl ⟨rfl, _, _, by rw [h4.2], h4.1⟩)
  · cases h
    refine ⟨_, [_], rfl, calm_cons trivial (fun h => h) (calm_nil a), ?_⟩
    exact Or.inr (Or.inr ⟨rfl, h4, h5⟩)

theorem residual_within (K : Kernels) (a : Args) (st : State)
    (h : ¬(st.j + 1 < a.work ∧ (residual K a st).R_F < a.eps)) :
    Within a st (residual K a st) ∧ (residual K a st).mprod = st.mprod + 1 ∧
    (residual K a st).j = st.j := by
  refine ⟨⟨rfl, rfl, rfl, [_, _, _], rfl, ?_⟩, rfl, rfl⟩
  exact calm_cons trivial h (calm_cons trivial (fun h => h) (calm_cons trivial (fun h => h) (calm_nil a)))

theorem residual_log (K : Kernels) (a : Args) (st : State) :
    (residual K a st).log = Event.nrmF st.iter st.j (residual K a st).R_F ::
      ([Event.orthogF st.iter (st.j + 1), Event.matvecT st.iter st.j] ++ st.log) := rfl

theorem extend_ok {K : Kernels} {a : Args} {st st' : State}
    (h : extend K a st = .ok st') :
    Within a st st' ∧ st'.mprod = st.mprod + 1 ∧ st'.j = st.j ∧ ¬st.R_F < a.eps := by
  unfold extend at h
  simp only at h
  split_ifs at h with hR hi hS hS
  · cases h
    refine ⟨⟨rfl, rfl, rfl, [_, _, _], rfl, ?_⟩, rfl, rfl, hR⟩
    exact calm_cons trivial hS (calm_cons trivial (fun h => h) (calm_cons trivial (fun h => h) (calm_nil a)))
  · cases h
    refine ⟨⟨rfl, rfl, rfl, [_, _], rfl, ?_⟩, rfl, rfl, hR⟩
    exact calm_cons trivial hS (calm_cons trivial (fun h => h) (calm_nil a))

theorem extend_error {K : Kernels} {a : Args} {st st' : State} {c : Int}
    (h : extend K a st = .error (c, st')) :
    (c = -5 ∧ st' = st ∧ st.R_F < a.eps) ∨ (¬st.R_F < a.eps ∧ Faulted a st c st') := by
  unfold extend at h
  simp only at h
  split_ifs at h with hR hi hS hS
  · cases h; exact Or.inl ⟨rfl, rfl, hR⟩
  · cases h
    refine Or.inr ⟨hR, _, [_, _], rfl, calm_cons trivial (fun h => h) (calm_cons trivial (fun h => h) (calm_nil a)), ?_⟩
    exact Or.inr (Or.inr ⟨rfl, hS⟩)
  · cases h
    refine Or.inr ⟨hR, _, [_], rfl, calm_cons trivial (fun h => h) (calm_nil a), ?_⟩
    exact Or.inr (Or.inr ⟨rfl, hS⟩)

/-- What line 219 does: a new column `j + 1` is passed to `orthog` exactly
when `iter > 1`; the trace of lines 210-221 has the call in that case only. -/
theorem extend_trace {K : Kernels} {a : Args} {st st' : State}
    (h : extend K a st = .ok st') :
    ∃ S, st'.log =
      if 1 < st.iter then
        Event.nrmW st.iter (st.j + 1) S :: Event.orthogW st.iter (st.j + 1) (st.j + 1) ::
          Event.matvec st.iter (st.j + 1) :: st.log
      else Event.nrmW st.iter (st.j + 1) S :: Event.matvec st.iter (st.j + 1) :: st.log := by
  unfold extend at h
  simp only at h
  split_ifs at h with hR hi hS hS
  · cases h
    exact ⟨_, by rw [if_pos hi]; rfl⟩
  · cases h
    exact ⟨_, by rw [if_neg hi]⟩

theorem lanczosStep_ok {K : Kernels} {a : Args} {st st' : State}
    (h : lanczosStep K a st = .ok st') :
    Within a st st' ∧ st'.j = st.j + 1 ∧
    st'.mprod = st.mprod + (if st.j + 1 < a.work then 2 else 1) := by
  unfold lanczosStep at h
  simp only at h
  split_ifs at h with hj
  · cases hx : extend K a (residual K a st) with
    | error r => rw [hx] at h; cases h
    | ok s₂ =>
      rw [hx] at h
      cases h
      obtain ⟨hw, hm, hj₂, hR⟩ := extend_ok hx
      obtain ⟨hw₁, hm₁, hj₁⟩ := residual_within K a st (fun hh => hR hh.2)
      have hw₂ := within_trans hw₁ hw
      refine ⟨⟨hw₂.iter, hw₂.k, hw₂.converged, hw₂.log⟩, ?_, ?_⟩
      · show s₂.j + 1 = st.j + 1
        rw [hj₂, hj₁]
      · show s₂.mprod = _
        rw [hm, hm₁, if_pos (by simpa [hj₁] using hj)]
        ring
  · cases h
    obtain ⟨hw₁, hm₁, hj₁⟩ := residual_within K a st (fun hh => hj hh.1)
    refine ⟨⟨hw₁.iter, hw₁.k, hw₁.converged, hw₁.log⟩, ?_, ?_⟩
    · show (residual K a st).j + 1 = st.j + 1
      rw [hj₁]
    · show (residual K a st).mprod = _
      rw [hm₁, if_neg (by simpa [hj₁] using hj)]

theorem lanczosStep_error {K : Kernels} {a : Args} {st st' : State} {c : Int}
    (h : lanczosStep K a st = .error (c, st')) : Faulted a st c st' := by
  unfold lanczosStep at h
  simp only at h
  split_ifs at h with hj
  · cases hx : extend K a (residual K a st) with
    | ok s₂ => rw [hx] at h; cases h
    | error r =>
      rw [hx] at h
      cases h
      rcases extend_error hx with ⟨rfl, rfl, hR⟩ | ⟨hR, hf⟩
      · refine ⟨_, _, residual_log K a st, ?_, Or.inr (Or.inr ⟨rfl, ?_⟩)⟩
        · exact calm_cons trivial (fun h => h) (calm_cons trivial (fun h => h) (calm_nil a))
        · exact ⟨hj, hR⟩
      · exact faulted_after (residual_within K a st (fun hh => hR hh.2)).1 hf

theorem lanczos_ok {K : Kernels} {a : Args} :
    ∀ (fuel : Nat) (st st' : State), lanczos K a fuel st = .ok st' → a.work - st.j ≤ fuel →
      Within a st st' ∧
      st'.mprod = st.mprod + (if st.j < a.work then 2 * (a.work - st.j) - 1 else 0) ∧
      ¬st'.j < a.work := by
  intro fuel
  induction fuel with
  | zero =>
    intro st st' h hf
    simp only [lanczos] at h
    cases h
    have : ¬st.j < a.work := by simp at hf; omega
    exact ⟨within_refl a st, by simp [this], this⟩
  | succ fuel ih =>
    intro st st' h hf
    simp only [lanczos] at h
    split_ifs at h with hj
    · cases hx : lanczosStep K a st with
      | error r => rw [hx] at h; cases h
      | ok s₁ =>
        rw [hx] at h
        obtain ⟨hw, hj₁, hm₁⟩ := lanczosStep_ok hx
        obtain ⟨hw', hm', hj'⟩ := ih s₁ st' h (by rw [hj₁]; push_cast at hf; omega)
        refine ⟨within_trans hw hw', ?_, hj'⟩
        rw [hm', hm₁, hj₁, if_pos hj]
        split_ifs <;> omega
    · cases h
      exact ⟨within_refl a st, by simp [hj], hj⟩

theorem lanczos_error {K : Kernels} {a : Args} :
    ∀ (fuel : Nat) (st st' : State) (c : Int), lanczos K a fuel st = .error (c, st') →
      Faulted a st c st' := by
  intro fuel
  induction fuel with
  | zero =>
    intro st st' c h
    simp only [lanczos] at h
    cases h
  | succ fuel ih =>
    intro st st' c h
    simp only [lanczos] at h
    split_ifs at h with hj
    · cases hx : lanczosStep K a st with
      | error r =>
        rw [hx] at h
        cases h
        exact lanczosStep_error hx
      | ok s₁ =>
        rw [hx] at h
        exact faulted_after (lanczosStep_ok hx).1 (ih s₁ st' c h)

theorem lanczosPass_ok {K : Kernels} {a : Args} {st st' : State}
    (h : lanczosPass K a st = .ok st') :
    st'.iter = st.iter ∧ st'.k = st.k ∧ st'.converged = st.converged ∧
    st'.mprod = st.mprod + passCost a.work (if st.iter = 0 then 0 else st.k) ∧
    PassLog a st.iter (if st.iter = 0 then 0 else st.k) st.log st'.log := by
  unfold lanczosPass at h
  cases h₁ : startPass K a st with
  | error r => rw [h₁] at h; cases h
  | ok s₁ =>
    rw [h₁] at h
    simp only at h
    cases h₂ : firstColumn K a s₁ with
    | error r => rw [h₂] at h; cases h
    | ok s₂ =>
      rw [h₂] at h
      simp only at h
      obtain ⟨hi₁, hk₁, hc₁, hm₁, hj₁, hl₁⟩ := startPass_ok h₁
      obtain ⟨hw₂, hm₂, hj₂⟩ := firstColumn_ok h₂
      obtain ⟨hw₃, hm₃, -⟩ := lanczos_ok _ _ _ h (by
        rcases le_total 0 (a.work - s₂.j) with h0 | h0
        · rw [Int.toNat_of_nonneg h0]
        · exact le_trans h0 (Int.ofNat_nonneg _))
      have hw := within_trans hw₂ hw₃
      obtain ⟨inner, hlog, hcalm⟩ := hw.log
      refine ⟨hw.iter.trans hi₁, hw.k.trans hk₁, hw.converged.trans hc₁, ?_, ?_⟩
      · rw [hm₃, hm₂, hm₁, hj₂, hj₁, passCost]
        split_ifs <;> omega
      · rw [← hj₁]
        rcases hl₁ with hl | ⟨d, hl⟩
        · exact ⟨inner, [], by rw [hlog, hl]; rfl, hcalm, Or.inl rfl⟩
        · exact ⟨inner, [Event.nrmSeed d], by rw [hlog, hl]; rfl, hcalm, Or.inr ⟨d, rfl⟩⟩

theorem faulted_faultLog {a : Args} {st st' : State} {c : Int} (h : Faulted a st c st') :
    FaultLog a c st.log st'.log := by
  obtain ⟨e, new, hl, hc, hf⟩ := h
  exact ⟨e, new, hl, hf, fun x hx => (hc x hx).2⟩

theorem lanczosPass_error {K : Kernels} {a : Args} {st st' : State} {c : Int}
    (h : lanczosPass K a st = .error (c, st')) : FaultLog a c st.log st'.log := by
  unfold lanczosPass at h
  cases h₁ : startPass K a st with
  | error r =>
    rw [h₁] at h
    cases h
    obtain ⟨rfl, d, hl, hd⟩ := startPass_error h₁
    exact ⟨_, [], hl, Or.inl ⟨rfl, d, rfl, hd⟩, fun x hx => by cases hx⟩
  | ok s₁ =>
    rw [h₁] at h
    simp only at h
    obtain ⟨-, -, -, -, -, hl₁⟩ := startPass_ok h₁
    have key : ∀ s₂ : State, Faulted a s₁ c s₂ → FaultLog a c st.log s₂.log := by
      intro s₂ hf
      obtain ⟨e, new, hl, hc, hf⟩ := hf
      rcases hl₁ with hl' | ⟨d, hl'⟩
      · refine ⟨e, new ++ [Event.pass st.iter s₁.j], by rw [hl, hl']; simp, hf, ?_⟩
        intro x hx
        rcases List.mem_append.1 hx with hx | hx
        · exact (hc x hx).2
        · rw [List.mem_singleton.1 hx]; exact fun h => h
      · refine ⟨e, new ++ [Event.pass st.iter s₁.j, Event.nrmSeed d], by rw [hl, hl']; simp, hf, ?_⟩
        intro x hx
        rcases List.mem_append.1 hx with hx | hx
        · exact (hc x hx).2
        · simp only [List.mem_cons, List.mem_singleton, List.not_mem_nil, or_false] at hx
          rcases hx with rfl | rfl <;> exact fun h => h
    cases h₂ : firstColumn K a s₁ with
    | error r =>
      rw [h₂] at h
      cases h
      exact key _ (firstColumn_error h₂)
    | ok s₂ =>
      rw [h₂] at h
      simp only at h
      exact key _ (faulted_after (firstColumn_ok h₂).1 (lanczos_error _ _ _ _ h))

theorem ritz_facts (K : Kernels) (a : Args) (st : State) :
    (ritz K a st).iter = st.iter ∧ (ritz K a st).mprod = st.mprod ∧
    ∃ j k, (ritz K a st).log = Event.conv st.iter j k (ritz K a st).converged :: st.log :=
  ⟨rfl, rfl, _, _, rfl⟩

theorem starts_calm {a : Args} {inner : List Event} (h : Calm a inner) (l : List Event) :
    starts (inner ++ l) = starts l := by
  induction inner with
  | nil => rfl
  | cons e t ih =>
    have ht : Calm a t := fun x hx => h x (List.mem_cons_of_mem _ hx)
    have he := (h e (List.mem_cons_self _ _)).1
    cases e <;> first | exact ih ht | exact he.elim

theorem starts_passLog {a : Args} {it j₀ : Int} {old new : List Event}
    (h : PassLog a it j₀ old new) : starts new = j₀ :: starts old := by
  obtain ⟨inner, pre, rfl, hc, hp⟩ := h
  rw [starts_calm hc]
  rcases hp with rfl | ⟨d, rfl⟩ <;> rfl

theorem quiet_passLog {a : Args} {it j₀ : Int} {old new : List Event}
    (h : PassLog a it j₀ old new) (hq : ∀ e ∈ old, ¬e.dependent a) :
    ∀ e ∈ new, ¬e.dependent a := by
  obtain ⟨inner, pre, rfl, hc, hp⟩ := h
  intro e he
  rcases List.mem_append.1 he with he | he
  · exact (hc e he).2
  · rcases List.mem_cons.1 he with rfl | he
    · exact fun h => h
    · rcases List.mem_append.1 he with he | he
      · rcases hp with rfl | ⟨d, rfl⟩
        · cases he
        · rw [List.mem_singleton.1 he]; exact fun h => h
      · exact hq e he

theorem conv_passLog {a : Args} {it j₀ : Int} {old new : List Event}
    (h : PassLog a it j₀ old new) {i j k c : Int} (hm : Event.conv i j k c ∈ new) :
    Event.conv i j k c ∈ old := by
  obtain ⟨inner, pre, rfl, hc, hp⟩ := h
  rcases List.mem_append.1 hm with he | he
  · exact (hc _ he).1.elim
  · rcases List.mem_cons.1 he with he | he
    · cases he
    · rcases List.mem_append.1 he with he | he
      · rcases hp with rfl | ⟨d, rfl⟩
        · cases he
        · cases List.mem_singleton.1 he
      · exact he

theorem counted_next {a : Args} {st p : State} (new : List Event) (it : Int)
    (hc : Counted a st) (hlt : st.iter < a.maxit)
    (hlog : PassLog a st.iter (if st.iter = 0 then 0 else st.k) st.log p.log)
    (hm : p.mprod = st.mprod + passCost a.work (if st.iter = 0 then 0 else st.k))
    (hnew : ∀ e ∈ new, e ∈ p.log ∨ ¬e.dependent a)
    (hst : starts new = starts p.log) (hit : it = st.iter + 1) :
    ((starts new).length : Int) = it ∧ (it ≠ 0 → ∃ l, starts new = l ++ [0]) ∧
    p.mprod = ((starts new).map (passCost a.work)).sum ∧ (∀ e ∈ new, ¬e.dependent a) ∧
    (it = 0 ∨ it ≤ a.maxit) := by
  have hs := starts_passLog hlog
  refine ⟨?_, ?_, ?_, ?_, ?_⟩
  · rw [hst, hs, List.length_cons, hit, ← hc.iters]; push_cast; ring
  · intro _
    rw [hst, hs]
    by_cases h0 : st.iter = 0
    · have : starts st.log = [] := by
        have := hc.iters
        rw [h0] at this
        exact List.length_eq_zero.1 (by exact_mod_cast this)
      rw [this, if_pos h0]
      exact ⟨[], rfl⟩
    · obtain ⟨l, hl⟩ := hc.first h0
      rw [hl]
      exact ⟨_ :: l, rfl⟩
  · rw [hst, hs, hm, hc.cost, List.map_cons, List.sum_cons]; ring
  · intro e he
    rcases hnew e he with h | h
    · exact quiet_passLog hlog hc.quiet e h
    · exact h
  · right; omega

theorem outerBody_error {K : Kernels} {a : Args} {st st' : State} {c : Int}
    (h : outerBody K a st = .error (c, st')) : FaultLog a c st.log st'.log := by
  unfold outerBody at h
  cases hp : lanczosPass K a st with
  | error r =>
    rw [hp] at h
    cases h
    exact lanczosPass_error hp
  | ok p =>
    rw [hp] at h
    simp only at h
    split_ifs at h

theorem outerBody_break {K : Kernels} {a : Args} {st st' : State}
    (hinv : Inv K a st) (hlt : st.iter < a.maxit) (h : outerBody K a st = .ok (true, st')) :
    Broke a st' := by
  unfold outerBody at h
  cases hp : lanczosPass K a st with
  | error r => rw [hp] at h; cases h
  | ok p =>
    rw [hp] at h
    simp only at h
    obtain ⟨hi, -, -, hm, hlog⟩ := lanczosPass_ok hp
    split_ifs at h with hcv
    · cases h
      obtain ⟨h1, h2, h3, h4, h5⟩ := counted_next (ritz K a p).log ((ritz K a p).iter + 1)
        hinv.toCounted hlt hlog hm
        (by
          intro e he
          rcases List.mem_cons.1 he with rfl | he
          · exact Or.inr (fun h => h)
          · exact Or.inl he)
        rfl (by show p.iter + 1 = _; rw [hi])
      obtain ⟨hri, -, j, k, hl⟩ := ritz_facts K a p
      have hpos : (1 : Int) ≤ (ritz K a p).iter + 1 := by
        have h0 : (0 : Int) ≤ st.iter := by rw [← hinv.iters]; exact Int.ofNat_nonneg _
        rw [hri, hi]; omega
      refine ⟨⟨h1, h2, h3, h4, h5⟩, hcv, hpos, j, k, p.log, ?_, ?_⟩
      · show (ritz K a p).log = Event.conv ((ritz K a p).iter + 1 - 1) j k 1 :: p.log
        rw [hl, hcv, hri, add_sub_cancel_right]
      · intro it j k c hmem
        exact hinv.unconverged _ _ _ _ (conv_passLog hlog hmem)
    · cases h

theorem outerBody_next {K : Kernels} {a : Args} {st st' : State}
    (hinv : Inv K a st) (hlt : st.iter < a.maxit) (h : outerBody K a st = .ok (false, st')) :
    Inv K a st' ∧ st'.iter = st.iter + 1 := by
  unfold outerBody at h
  cases hp : lanczosPass K a st with
  | error r => rw [hp] at h; cases h
  | ok p =>
    rw [hp] at h
    simp only at h
    obtain ⟨hi, -, -, hm, hlog⟩ := lanczosPass_ok hp
    split_ifs at h with hcv
    · cases h
    · cases h
      have hit : (restart K a (ritz K a p)).iter = st.iter + 1 := by
        show p.iter + 1 = _; rw [hi]
      obtain ⟨h1, h2, h3, h4, h5⟩ := counted_next (restart K a (ritz K a p)).log
        (restart K a (ritz K a p)).iter hinv.toCounted hlt hlog hm
        (by
          intro e he
          rcases List.mem_cons.1 he with rfl | he
          · exact Or.inr (fun h => h)
          · rcases List.mem_cons.1 he with rfl | he
            · exact Or.inr (fun h => h)
            · exact Or.inl he)
        rfl hit
      refine ⟨⟨⟨h1, h2, h3, h4, h5⟩, ?_, ?_⟩, hit⟩
      · intro it j k c hmem
        rcases List.mem_cons.1 hmem with he | he
        · cases he
        · rcases List.mem_cons.1 he with he | he
          · cases he
            exact hcv
          · exact hinv.unconverged _ _ _ _ (conv_passLog hlog he)
      · intro _
        exact ⟨st, p, hit.symm, hp, hcv, rfl⟩

theorem mainLoop_ok {K : Kernels} {a : Args} :
    ∀ (fuel : Nat) (st fs : State), Inv K a st → a.maxit - st.iter ≤ fuel →
      mainLoop K a fuel st = .ok fs → Broke a fs ∨ (Inv K a fs ∧ ¬fs.iter < a.maxit) := by
  intro fuel
  induction fuel with
  | zero =>
    intro st fs hinv hf h
    simp only [mainLoop] at h
    cases h
    exact Or.inr ⟨hinv, by simp at hf; omega⟩
  | succ fuel ih =>
    intro st fs hinv hf h
    simp only [mainLoop] at h
    split_ifs at h with hlt
    · cases hb : outerBody K a st with
      | error r => rw [hb] at h; cases h
      | ok r =>
        obtain ⟨b, s₁⟩ := r
        rw [hb] at h
        cases b
        · simp only at h
          obtain ⟨hinv₁, hi₁⟩ := outerBody_next hinv hlt hb
          exact ih s₁ fs hinv₁ (by rw [hi₁]; push_cast at hf; omega) h
        · simp only at h
          cases h
          exact Or.inl (outerBody_break hinv hlt hb)
    · cases h
      exact Or.inr ⟨hinv, hlt⟩

theorem mainLoop_error {K : Kernels} {a : Args} :
    ∀ (fuel : Nat) (st st' : State) (c : Int), Inv K a st →
      mainLoop K a fuel st = .error (c, st') →
      ∃ e rest, st'.log = e :: rest ∧ e.fault a c ∧ ∀ x ∈ rest, ¬x.dependent a := by
  intro fuel
  induction fuel with
  | zero =>
    intro st st' c _ h
    simp only [mainLoop] at h
    cases h
  | succ fuel ih =>
    intro st st' c hinv h
    simp only [mainLoop] at h
    split_ifs at h with hlt
    · cases hb : outerBody K a st with
      | error r =>
        rw [hb] at h
        cases h
        obtain ⟨e, mid, hl, hf, hq⟩ := outerBody_error hb
        refine ⟨e, _, hl, hf, ?_⟩
        intro x hx
        rcases List.mem_append.1 hx with hx | hx
        · exact hq x hx
        · exact hinv.quiet x hx
      | ok r =>
        obtain ⟨b, s₁⟩ := r
        rw [hb] at h
        cases b
        · simp only at h
          exact ih s₁ st' c (outerBody_next hinv hlt hb).1 h
        · simp only at h
          cases h

theorem inv_start (K : Kernels) (a : Args) (mem : Mem) (u : Junk) : Inv K a (start a mem u) :=
  ⟨⟨rfl, fun h => (h rfl).elim, rfl, fun _ he => (List.not_mem_nil _ he).elim, Or.inl rfl⟩,
    fun _ _ _ _ he => (List.not_mem_nil _ he).elim, fun h => (h rfl).elim⟩

/-- The three ways in which a call of `irlb` ends. -/
theorem irlb_cases (K : Kernels) (a : Args) (mem : Mem) (u : Junk) :
    ((a.work < 4 ∨ a.n < 4 ∨ a.m < 4) ∧ irlb K a mem u = ⟨-1, enter mem u⟩) ∨
    ((4 ≤ a.work ∧ 4 ≤ a.n ∧ 4 ≤ a.m) ∧ ∃ e rest, (irlb K a mem u).st.log = e :: rest ∧
      e.fault a (irlb K a mem u).ret ∧ ∀ x ∈ rest, ¬x.dependent a) ∨
    ((4 ≤ a.work ∧ 4 ≤ a.n ∧ 4 ≤ a.m) ∧ ∃ fs,
      irlb K a mem u = ⟨if fs.converged = 1 then 0 else -2, results K a fs⟩ ∧
      (Broke a fs ∨ (Inv K a fs ∧ ¬fs.iter < a.maxit))) := by
  unfold irlb
  split_ifs with hd
  · exact Or.inl ⟨hd, rfl⟩
  · have hv : 4 ≤ a.work ∧ 4 ≤ a.n ∧ 4 ≤ a.m := by omega
    right
    cases hm : mainLoop K a a.maxit.toNat (start a mem u) with
    | error r =>
      obtain ⟨c, st'⟩ := r
      exact Or.inl ⟨hv, mainLoop_error _ _ _ _ (inv_start K a mem u) hm⟩
    | ok fs =>
      refine Or.inr ⟨hv, fs, rfl, mainLoop_ok _ _ _ (inv_start K a mem u) ?_ hm⟩
      show a.maxit - 0 ≤ _
      rw [sub_zero]
      exact Int.self_le_toNat _

theorem fault_code {a : Args} {c : Int} {e : Event} (h : e.fault a c) :
    c = -1 ∨ c = -4 ∨ c = -5 := by
  rcases h with ⟨h, -⟩ | ⟨h, -⟩ | ⟨h, -⟩
  · exact Or.inl h
  · exact Or.inr (Or.inl h)
  · exact Or.inr (Or.inr h)

theorem fault_dependent {a : Args} {c : Int} {e : Event} (h : e.fault a c) :
    c = -5 ↔ e.dependent a := by
  rcases h with ⟨rfl, d, rfl, -⟩ | ⟨rfl, it, S, rfl, hS⟩ | ⟨rfl, hd⟩
  · exact ⟨fun h => (by cases h), fun h => h.elim⟩
  · exact ⟨fun h => (by cases h), fun h => (h.1 ⟨hS, rfl⟩).elim⟩
  · exact ⟨fun _ => hd, fun _ => rfl⟩

theorem exhausted_converged {K : Kernels} {a : Args} {fs : State} (hinv : Inv K a fs)
    (h0 : fs.iter ≠ 0) : fs.converged ≠ 1 := by
  obtain ⟨q, p, -, -, hc, rfl⟩ := hinv.origin h0
  exact hc

/-- What line 180 does: -4 is returned only on the norm of the first
column of a pass that starts at column 1. -/
theorem irlb_near_null_at_column_one (K : Kernels) (a : Args) (mem : Mem) (u : Junk)
    (h : (irlb K a mem u).ret = -4) :
    ∃ it S rest, (irlb K a mem u).st.log = Event.nrmW0 it 1 S :: rest ∧ S < a.tol := by
  rcases irlb_cases K a mem u with ⟨-, hr⟩ | ⟨-, e, rest, hlog, hf, -⟩ | ⟨-, fs, hr, -⟩
  · rw [hr] at h
    cases h
  · rcases hf with ⟨hc, -⟩ | ⟨-, it, S, rfl, hS⟩ | ⟨hc, -⟩
    · rw [hc] at h
      cases h
    · exact ⟨it, S, rest, hlog, hS⟩
    · rw [hc] at h
      cases h
  · rw [hr] at h
    have h' : (if fs.converged = 1 then (0 : Int) else -2) = -4 := h
    split_ifs at h'
    cases h'

/-- What lines 246-285 do when the budget is exhausted: a run that returns
-2 with `maxit >= 1` ran the pass of its last outer iteration to a state
`p`, the convergence test failed, and the results were formed from the
state left by the restart step, in which the first `k` columns of W are
the product `W * BU` (lines 270-272) and B is zeroed and refilled (lines
260-265). -/
theorem exhausted_run_restarts (K : Kernels) (a : Args) (mem : Mem) (u : Junk)
    (hmax : 1 ≤ a.maxit) (hret : (irlb K a mem u).ret = -2) :
    ∃ q p, q.iter + 1 = a.maxit ∧ lanczosPass K a q = .ok p ∧
      (ritz K a p).converged ≠ 1 ∧
      (irlb K a mem u).st = results K a (restart K a (ritz K a p)) ∧
      (irlb K a mem u).st.W =
        memmove (ritz K a p).W 0 (irlb K a mem u).st.U1 0 (a.m * (ritz K a p).k) ∧
      (irlb K a mem u).st.U1 =
        store (ritz K a p).U1 0 (a.m * (ritz K a p).k)
          (K.dgemm 'n' 'n' a.m (ritz K a p).k (ritz K a p).j 1 (ritz K a p).W a.m
            (ritz K a p).BU a.work 0 (ritz K a p).U1 a.m) ∧
      (irlb K a mem u).st.B =
        forUpTo (ritz K a p).k
          (fun jj B =>
            poke (poke B (jj * a.work + jj) ((ritz K a p).BS jj)) ((ritz K a p).k * a.work + jj)
              ((ritz K a p).res jj))
          (memset (ritz K a p).B (a.work * a.work)) := by
  rcases irlb_cases K a mem u with ⟨-, hr⟩ | ⟨-, e, rest, -, hf, -⟩ | ⟨-, fs, hr, hfs⟩
  · rw [hr] at hret
    cases hret
  · rcases fault_code hf with h | h | h <;> rw [h] at hret <;> cases hret
  · rw [hr] at hret ⊢
    have hret' : (if fs.converged = 1 then (0 : Int) else -2) = -2 := hret
    rcases hfs with hb | ⟨hinv, hex⟩
    · rw [if_pos hb.conv] at hret'
      cases hret'
    · have hle : fs.iter = a.maxit := by
        rcases hinv.bound with h | h <;> omega
      obtain ⟨q, p, hq, hp, hc, rfl⟩ := hinv.origin (by omega)
      exact ⟨q, p, hq.trans hle, hp, hc, rfl, rfl, rfl, rfl⟩

theorem cost_of_starts (work : Int) :
    ∀ l : List Int, (∀ j ∈ l, j < work) →
      (l.map (passCost work)).sum = (l.map (fun j => 2 * (work - j))).sum := by
  intro l
  induction l with
  | nil => intro _; rfl
  | cons j t ih =>
    intro h
    rw [List.map_cons, List.map_cons, List.sum_cons, List.sum_cons,
      ih (fun x hx => h x (List.mem_cons_of_mem _ hx)), passCost,
      if_pos (h j (List.mem_cons_self _ _))]

theorem cell_eq {w c r c' r' : Int} (hr : 0 ≤ r ∧ r < w) (hr' : 0 ≤ r' ∧ r' < w) :
    c * w + r = c' * w + r' ↔ c = c' ∧ r = r' := by
  constructor
  · intro h
    have h1 : (c * w + r) % w = r := by
      rw [add_comm, Int.add_mul_emod_self, Int.emod_eq_of_lt hr.1 hr.2]
    have h2 : (c' * w + r') % w = r' := by
      rw [add_comm, Int.add_mul_emod_self, Int.emod_eq_of_lt hr'.1 hr'.2]
    have hrr : r = r' := by rw [← h1, ← h2, h]
    subst hrr
    have hw : w ≠ 0 := by omega
    exact ⟨mul_right_cancel₀ hw (add_right_cancel h), rfl⟩
  · rintro ⟨rfl, rfl⟩
    rfl

theorem memset_cell (B : Buf) {w c r : Int} (hc : 0 ≤ c ∧ c < w) (hr : 0 ≤ r ∧ r < w) :
    memset B (w * w) (c * w + r) = 0 := by
  have h0 : 0 ≤ c * w := mul_nonneg hc.1 (by omega)
  have h1 : c * w + r < w * w := by nlinarith [hc.1, hc.2, hr.1, hr.2]
  unfold memset store
  rw [if_pos ⟨by omega, by omega⟩]

theorem cell_iff {w c r q t : Int} (hc : 0 ≤ c ∧ c < w) (hr : 0 ≤ r ∧ r < w) (ht : 0 ≤ t)
    (htq : t ≤ q) : c * w + r = q * w + t ↔ c = q ∧ r = t := by
  by_cases hq : q < w
  · exact cell_eq hr ⟨ht, by omega⟩
  · constructor
    · intro h
      have h1 : c * w + r < w * w := by nlinarith [hc.1, hc.2, hr.1, hr.2]
      have h2 : w * w ≤ q * w := by nlinarith [hc.1, hc.2]
      omega
    · rintro ⟨rfl, -⟩
      omega

theorem fill_cell (w k : Int) (BS res : Buf) {c r : Int} (hc : 0 ≤ c ∧ c < w)
    (hr : 0 ≤ r ∧ r < w) :
    ∀ (n : Nat) (B₀ : Buf), n = 0 ∨ (n : Int) ≤ k →
      (List.range n).foldl
          (fun B (jj : Nat) => poke (poke B ((jj : Int) * w + jj) (BS jj)) (k * w + jj) (res jj))
          B₀ (c * w + r) =
        if r = c ∧ r < n then BS r else if c = k ∧ r < n then res r else B₀ (c * w + r) := by
  intro n
  induction n with
  | zero =>
    intro B₀ _
    rw [if_neg (by push_cast; omega), if_neg (by push_cast; omega)]
    rfl
  | succ n ih =>
    intro B₀ hn
    have hn' : ((n : Int) + 1) ≤ k := by
      rcases hn with h | h
      · cases h
      · exact_mod_cast h
    have h0 : (0 : Int) ≤ n := Int.ofNat_nonneg _
    rw [List.range_succ, List.foldl_append, List.foldl_cons, List.foldl_nil]
    simp only [poke]
    simp only [cell_iff hc hr h0 (le_refl _), cell_iff hc hr h0 (show (n : Int) ≤ k by omega)]
    rw [ih B₀ (Or.inr (by omega))]
    push_cast
    split_ifs <;>
      first
      | rfl
      | (exfalso; omega)
      | (have hrn : r = n := by omega
         rw [hrn])

/-! ## The claims -/

set_option maxRecDepth 100000

/-- C1: with `work < 4`, `n < 4` or `m < 4` the routine returns -1 at once:
the caller's memory (all buffers, and the two counter cells) is as it was,
no matrix-vector product was counted and no kernel was called. -/
theorem irlb_rejects_small_dimensions (K : Kernels) (a : Args) (mem : Mem) (u : Junk)
    (h : a.work < 4 ∨ a.n < 4 ∨ a.m < 4) :
    (irlb K a mem u).ret = -1 ∧ (irlb K a mem u).st.toMem = mem ∧
    (irlb K a mem u).st.mprod = 0 ∧ (irlb K a mem u).st.log = [] := by
  unfold irlb
  rw [if_pos h]
  exact ⟨rfl, rfl, rfl, rfl⟩

/-- C1 (witness): the 5 x 5 problem with `work = 3`. -/
theorem irlb_rejects_small_dimensions_witness :
    (Demo.smallArgs.work < 4 ∨ Demo.smallArgs.n < 4 ∨ Demo.smallArgs.m < 4) ∧
    Demo.rejected.ret = -1 ∧ Demo.rejected.st.toMem = Demo.mem ∧
    Demo.rejected.st.mprod = 0 ∧ Demo.rejected.st.log = [] :=
  ⟨by decide, irlb_rejects_small_dimensions Demo.kernels Demo.smallArgs Demo.mem Demo.junk
    (by decide)⟩

/-- C2: on valid dimensions with `maxit >= 1`, when none of the early
returns -1, -4, -5 is taken, `irlb` returns 0 exactly when `convtests`
reported convergence in an outer iteration numbered at most `maxit`, and
-2 otherwise; `ITER` is the number of outer iterations executed, lies
between 1 and `maxit`, and is `maxit` when the result is -2. -/
theorem irlb_converged_or_exhausted (K : Kernels) (a : Args) (mem : Mem) (u : Junk)
    (hm : 4 ≤ a.m) (hn : 4 ≤ a.n) (hw : 4 ≤ a.work) (hmax : 1 ≤ a.maxit)
    (h1 : (irlb K a mem u).ret ≠ -1) (h4 : (irlb K a mem u).ret ≠ -4)
    (h5 : (irlb K a mem u).ret ≠ -5) :
    ((irlb K a mem u).ret = 0 ↔
      ∃ it j k, Event.conv it j k 1 ∈ (irlb K a mem u).st.log ∧ it + 1 ≤ a.maxit) ∧
    ((irlb K a mem u).ret ≠ 0 → (irlb K a mem u).ret = -2) ∧
    (irlb K a mem u).st.ITER = (starts (irlb K a mem u).st.log).length ∧
    1 ≤ (irlb K a mem u).st.ITER ∧ (irlb K a mem u).st.ITER ≤ a.maxit ∧
    ((irlb K a mem u).ret = -2 → (irlb K a mem u).st.ITER = a.maxit) := by
  rcases irlb_cases K a mem u with ⟨hd, -⟩ | ⟨-, e, rest, -, hf, -⟩ | ⟨-, fs, hr, hfs⟩
  · omega
  · rcases fault_code hf with h | h | h
    · exact (h1 h).elim
    · exact (h4 h).elim
    · exact (h5 h).elim
  · rw [hr]
    rcases hfs with hb | ⟨hinv, hex⟩
    · obtain ⟨j, k, rest, hlog, -⟩ := hb.head
      have hle : fs.iter ≤ a.maxit := by
        rcases hb.bound with h | h
        · have := hb.pos; omega
        · exact h
      have hret : (if fs.converged = 1 then (0 : Int) else -2) = 0 := by
        rw [if_pos hb.conv]
      refine ⟨?_, ?_, ?_, ?_, ?_, ?_⟩
      · refine ⟨fun _ => ⟨fs.iter - 1, j, k, ?_, by omega⟩, fun _ => hret⟩
        show Event.conv (fs.iter - 1) j k 1 ∈ fs.log
        rw [hlog]
        exact List.mem_cons_self _ _
      · exact fun h => (h hret).elim
      · exact hb.iters.symm
      · exact hb.pos
      · exact hle
      · intro h
        have h' : (if fs.converged = 1 then (0 : Int) else -2) = -2 := h
        rw [hret] at h'
        cases h'
    · have hle : fs.iter = a.maxit := by
        rcases hinv.bound with h | h <;> omega
      have hne : fs.iter ≠ 0 := by omega
      have hcv : fs.converged ≠ 1 := exhausted_converged hinv hne
      have hret : (if fs.converged = 1 then (0 : Int) else -2) = -2 := by
        rw [if_neg hcv]
      refine ⟨?_, ?_, ?_, ?_, ?_, ?_⟩
      · refine ⟨fun h => ?_, fun h => ?_⟩
        · have h' : (if fs.converged = 1 then (0 : Int) else -2) = 0 := h
          rw [hret] at h'
          cases h'
        · obtain ⟨it, j, k, hmem, -⟩ := h
          exact (hinv.unconverged it j k 1 hmem rfl).elim
      · exact fun _ => hret
      · exact hinv.iters.symm
      · show 1 ≤ fs.iter
        omega
      · show fs.iter ≤ a.maxit
        omega
      · exact fun _ => hle

/-- C2 (witness): the run with `maxit = 1` takes no early return and does
not converge: it returns -2, no convergence is in its trace, and it reports
`ITER = 1 = maxit`, the number of passes. -/
theorem irlb_converged_or_exhausted_witness :
    (4 ≤ (Demo.args 1 (1/10)).m ∧ 4 ≤ (Demo.args 1 (1/10)).n ∧
      4 ≤ (Demo.args 1 (1/10)).work ∧ 1 ≤ (Demo.args 1 (1/10)).maxit ∧
      Demo.exhausted.ret ≠ -1 ∧ Demo.exhausted.ret ≠ -4 ∧ Demo.exhausted.ret ≠ -5) ∧
    (Demo.exhausted.ret = 0 ↔
      ∃ it j k, Event.conv it j k 1 ∈ Demo.exhausted.st.log ∧
        it + 1 ≤ (Demo.args 1 (1/10)).maxit) ∧
    (Demo.exhausted.ret ≠ 0 → Demo.exhausted.ret = -2) ∧
    Demo.exhausted.st.ITER = (starts Demo.exhausted.st.log).length ∧
    1 ≤ Demo.exhausted.st.ITER ∧ Demo.exhausted.st.ITER ≤ (Demo.args 1 (1/10)).maxit ∧
    (Demo.exhausted.ret = -2 → Demo.exhausted.st.ITER = (Demo.args 1 (1/10)).maxit) :=
  ⟨by decide!,
    irlb_converged_or_exhausted Demo.kernels (Demo.args 1 (1/10)) Demo.mem Demo.junk
      (by decide) (by decide) (by decide) (by decide) (by decide!) (by decide!) (by decide!)⟩

/-- C3 (counterexample): valid dimensions, `maxit = 10`, `eps = 1e-6` and a
seed that is zero, so that its norm is 0: `irlb` returns -1, not -4. -/
theorem zero_seed_returns_misc_error :
    (4 ≤ (Demo.args 10 (1/10)).m ∧ 4 ≤ (Demo.args 10 (1/10)).n ∧
      4 ≤ (Demo.args 10 (1/10)).work ∧ 1 ≤ (Demo.args 10 (1/10)).maxit ∧
      0 < (Demo.args 10 (1/10)).eps ∧
      Demo.kernels.dnrm2 (Demo.args 10 (1/10)).n Demo.zeroSeed.V = 0) ∧
    Demo.nullSeed.ret = -1 ∧ Demo.nullSeed.ret ≠ -4 := by
  decide!

/-- C3 (amended): on valid dimensions with `maxit >= 1` and `eps > 0`, a
seed of norm 0 makes `irlb` return -1 (line 153), not -4. -/
theorem irlb_zero_seed (K : Kernels) (a : Args) (mem : Mem) (u : Junk)
    (hm : 4 ≤ a.m) (hn : 4 ≤ a.n) (hw : 4 ≤ a.work) (hmax : 1 ≤ a.maxit) (heps : 0 < a.eps)
    (hseed : K.dnrm2 a.n mem.V = 0) : (irlb K a mem u).ret = -1 := by
  obtain ⟨f, hf⟩ : ∃ f, a.maxit.toNat = f + 1 :=
    ⟨a.maxit.toNat - 1, by omega⟩
  have hd : ¬(a.work < 4 ∨ a.n < 4 ∨ a.m < 4) := by omega
  have hlt : (start a mem u).iter < a.maxit := by
    show (0 : Int) < a.maxit
    omega
  have hs : startPass K a (start a mem u) =
      .error (-1, { start a mem u with j := 0, log := [Event.nrmSeed 0] }) := by
    unfold startPass
    simp only
    rw [if_pos (show (start a mem u).iter = 0 from rfl)]
    have : K.dnrm2 a.n (start a mem u).V = 0 := hseed
    rw [this, if_pos (by linarith)]
    rfl
  unfold irlb
  rw [if_neg hd, hf]
  simp only [mainLoop, if_pos hlt, outerBody, lanczosPass, hs]

/-- C3 (witness): the run whose seed is zero. -/
theorem irlb_zero_seed_witness :
    (4 ≤ (Demo.args 10 (1/10)).m ∧ 4 ≤ (Demo.args 10 (1/10)).n ∧
      4 ≤ (Demo.args 10 (1/10)).work ∧ 1 ≤ (Demo.args 10 (1/10)).maxit ∧
      0 < (Demo.args 10 (1/10)).eps ∧
      Demo.kernels.dnrm2 (Demo.args 10 (1/10)).n Demo.zeroSeed.V = 0) ∧
    Demo.nullSeed.ret = -1 :=
  ⟨by decide!, irlb_zero_seed Demo.kernels (Demo.args 10 (1/10)) Demo.zeroSeed Demo.junk
    (by decide) (by decide) (by decide) (by decide) (by decide!) (by decide!)⟩

/-- C4 (failing input): the matrix is zero and the seed is the first unit
vector.  In the first outer iteration, at column 0, the norm of `A * v` is
0, below `tol = 1/10`; `irlb` returns -5, not -4. -/
theorem irlb_null_matrix_returns_dependence :
    Demo.nullMatrix.st.log =
      [Event.nrmW0 0 0 0, Event.matvec 0 0, Event.pass 0 0, Event.nrmSeed 1] ∧
    (0 : ℚ) < (Demo.args 10 (1/10)).tol ∧ Demo.nullMatrix.ret = -5 := by
  decide!

/-- C5: `irlb` returns -5 exactly when the call it made last is a norm on
which lines 182, 201 or 222 return: `S < eps` for the first column of a
pass (line 180 not having returned -4), `R_F < eps` with `j + 1 < work`,
or `S < eps` for a new column; and it returns as soon as such a norm
occurs, so that it is the last call of the trace. -/
theorem irlb_linear_dependence (K : Kernels) (a : Args) (mem : Mem) (u : Junk) :
    ((irlb K a mem u).ret = -5 ↔
      ∃ e, (irlb K a mem u).st.log.head? = some e ∧ e.dependent a) ∧
    ∀ e ∈ (irlb K a mem u).st.log, e.dependent a →
      (irlb K a mem u).st.log.head? = some e ∧ (irlb K a mem u).ret = -5 := by
  rcases irlb_cases K a mem u with ⟨-, hr⟩ | ⟨-, e, rest, hlog, hf, hq⟩ | ⟨-, fs, hr, hfs⟩
  · rw [hr]
    refine ⟨⟨fun h => (by cases h), fun ⟨e, he, _⟩ => (by cases he)⟩, fun e he => (by cases he)⟩
  · rw [hlog]
    refine ⟨⟨fun h => ⟨e, rfl, (fault_dependent hf).1 h⟩, ?_⟩, ?_⟩
    · rintro ⟨e', he', hd⟩
      cases he'
      exact (fault_dependent hf).2 hd
    · intro x hx hd
      rcases List.mem_cons.1 hx with rfl | hx
      · exact ⟨rfl, (fault_dependent hf).2 hd⟩
      · exact (hq x hx hd).elim
  · rw [hr]
    have hq : ∀ e ∈ fs.log, ¬e.dependent a := by
      rcases hfs with hb | ⟨hinv, -⟩
      · exact hb.quiet
      · exact hinv.quiet
    refine ⟨⟨fun h => ?_, ?_⟩, fun x hx hd => (hq x hx hd).elim⟩
    · have h' : (if fs.converged = 1 then (0 : Int) else -2) = -5 := h
      split_ifs at h'
      cases h'
    · rintro ⟨e, he, hd⟩
      exact (hq e (List.mem_of_mem_head? he) hd).elim

/-- C6 (failing input): on the early returns the cells behind `ITER` and
`MPROD` keep what the caller left in them (77 and 99).  With `work = 3`
the routine returns -1; with a zero matrix it returns -5 after one
matrix-vector product, and that count is not reported. -/
theorem irlb_early_return_leaves_counters :
    (Demo.mem.ITER = 77 ∧ Demo.mem.MPROD = 99) ∧
    (Demo.rejected.ret = -1 ∧ Demo.rejected.st.ITER = 77 ∧ Demo.rejected.st.MPROD = 99) ∧
    (Demo.nullMatrix.ret = -5 ∧ Demo.nullMatrix.st.iter = 0 ∧ Demo.nullMatrix.st.mprod = 1 ∧
      Demo.nullMatrix.st.ITER = 77 ∧ Demo.nullMatrix.st.MPROD = 99) := by
  decide!

/-- C7 (failing input): with `maxit = 1` the only outer iteration is the
last permitted one; it ends without convergence and `irlb` returns -2 with
`ITER = 1`.  The pass left `W[0] = 1/15`, `V[1] = 0` and `B[1, 1] = 3` (flat
index 5).  The restart step runs all the same: it puts the projected
column into V (`V[1] = 2`) and into W (`W[0] = 1 = U1[0]`) and zeroes B
(`B[1, 1] = 0`), so that lines 280-285 multiply the projected W and V by
`BU` and `BV` a second time. -/
theorem irlb_last_iteration_restarts :
    (Demo.args 1 (1/10)).maxit = 1 ∧ Demo.exhausted.ret = -2 ∧ Demo.exhausted.st.ITER = 1 ∧
    ((lanczosPass Demo.kernels (Demo.args 1 (1/10))
        (start (Demo.args 1 (1/10)) Demo.mem Demo.junk)).toOption.map
        (fun p => (p.W 0, p.V 1, p.B 5))) = some (1/15, 0, 3) ∧
    ((lanczosPass Demo.kernels (Demo.args 1 (1/10))
        (start (Demo.args 1 (1/10)) Demo.mem Demo.junk)).toOption.map
        (fun p => (restart Demo.kernels (Demo.args 1 (1/10))
          (ritz Demo.kernels (Demo.args 1 (1/10)) p)).V 1)) = some 2 ∧
    Demo.exhausted.st.W 0 = 1 ∧ Demo.exhausted.st.W 0 = Demo.exhausted.st.U1 0 ∧
    Demo.exhausted.st.B 5 = 0 ∧
    Demo.exhausted.st.log.head? = some (Event.restart 0 1) := by
  decide!

/-- C8 (counterexample): the run with `maxit = 1` ends with a restart step
that retains `k = 1` column, and `res[0] = 10/3`.  In the convention
`B[r, c]` = flat index `c * work + r` with `work = 4`, the entry `B[k, 0]`
(flat index 1) is 0, not `res[0]`; the residual is at `B[0, k]` (flat index 4). -/
theorem irlb_restart_residual_in_column :
    Demo.exhausted.st.log.head? = some (Event.restart 0 1) ∧
    Demo.exhausted.st.k = 1 ∧ Demo.exhausted.st.res 0 = 10/3 ∧
    Demo.exhausted.st.B (0 * 4 + 1) = 0 ∧
    Demo.exhausted.st.B (0 * 4 + 1) ≠ Demo.exhausted.st.res 0 ∧
    Demo.exhausted.st.B (1 * 4 + 0) = Demo.exhausted.st.res 0 := by
  decide!

/-- C8 (amended): after every restart step, in the convention `B[r, c]` =
flat index `c * work + r`, the `work` x `work` matrix B is zero except for
`B[jj, jj] = BS[jj]` and the residuals placed along column `k`,
`B[jj, k] = res[jj]`, for `jj < k`. -/
theorem restart_B_layout (K : Kernels) (a : Args) (st : State)
    (r c : Int) (hr : 0 ≤ r ∧ r < a.work) (hc : 0 ≤ c ∧ c < a.work) :
    (restart K a st).B (c * a.work + r) =
      if r = c ∧ r < (restart K a st).k then (restart K a st).BS r
      else if c = (restart K a st).k ∧ r < (restart K a st).k then (restart K a st).res r
      else 0 := by
  have hB : (restart K a st).B =
      (List.range st.k.toNat).foldl
        (fun B (jj : Nat) =>
          poke (poke B ((jj : Int) * a.work + jj) (st.BS jj)) (st.k * a.work + jj) (st.res jj))
        (memset st.B (a.work * a.work)) := by
    unfold restart forUpTo
    rfl
  have hlt : (r < (st.k.toNat : Int)) ↔ r < st.k := by omega
  rw [hB, fill_cell a.work st.k st.BS st.res hc hr st.k.toNat _ (by omega), memset_cell _ hc hr]
  show _ = if r = c ∧ r < st.k then st.BS r else if c = st.k ∧ r < st.k then st.res r else 0
  simp only [hlt]

/-- C8 (witness): a restart step applied to the final state of the run
with `maxit = 1`, where `k = 1`: row 0 of column 1 of B is given by the
layout, and `res[0] = 10/3`. -/
theorem restart_B_layout_witness :
    ((0 : Int) ≤ 0 ∧ (0 : Int) < (Demo.args 1 (1/10)).work) ∧
    ((0 : Int) ≤ 1 ∧ (1 : Int) < (Demo.args 1 (1/10)).work) ∧
    (restart Demo.kernels (Demo.args 1 (1/10)) Demo.exhausted.st).B
        (1 * (Demo.args 1 (1/10)).work + 0) =
      (if (0 : Int) = 1 ∧ 0 < (restart Demo.kernels (Demo.args 1 (1/10)) Demo.exhausted.st).k then
        (restart Demo.kernels (Demo.args 1 (1/10)) Demo.exhausted.st).BS 0
      else if 1 = (restart Demo.kernels (Demo.args 1 (1/10)) Demo.exhausted.st).k ∧
          0 < (restart Demo.kernels (Demo.args 1 (1/10)) Demo.exhausted.st).k then
        (restart Demo.kernels (Demo.args 1 (1/10)) Demo.exhausted.st).res 0
      else 0) ∧
    (restart Demo.kernels (Demo.args 1 (1/10)) Demo.exhausted.st).res 0 = 10/3 :=
  ⟨by decide, by decide,
    restart_B_layout Demo.kernels (Demo.args 1 (1/10)) Demo.exhausted.st 0 1
      ⟨by decide, by decide⟩ ⟨by decide, by decide⟩,
    by decide!⟩

/-- C10: when `irlb` returns 0 or -2 and every pass started at a column
below `work`, `MPROD` is the sum of `2 * (work - j)` over the first
columns `j` of the passes executed; a run in which `convtests` reports
convergence in the first outer iteration has `ITER = 1` and
`MPROD = 2 * work`. -/
theorem irlb_mprod_count (K : Kernels) (a : Args) (mem : Mem) (u : Junk)
    (hret : (irlb K a mem u).ret = 0 ∨ (irlb K a mem u).ret = -2)
    (hk : ∀ j ∈ starts (irlb K a mem u).st.log, j < a.work) :
    (irlb K a mem u).st.MPROD =
      ((starts (irlb K a mem u).st.log).map (fun j => 2 * (a.work - j))).sum ∧
    ((∃ j k, Event.conv 0 j k 1 ∈ (irlb K a mem u).st.log) →
      (irlb K a mem u).st.ITER = 1 ∧ (irlb K a mem u).st.MPROD = 2 * a.work) := by
  rcases irlb_cases K a mem u with ⟨-, hr⟩ | ⟨-, e, rest, -, hf, -⟩ | ⟨-, fs, hr, hfs⟩
  · rw [hr] at hret
    rcases hret with h | h <;> cases h
  · rcases fault_code hf with h | h | h <;> rw [h] at hret <;> rcases hret with h | h <;> cases h
  · rw [hr] at hk ⊢
    have hk' : ∀ j ∈ starts fs.log, j < a.work := hk
    have hc : Counted a fs := by
      rcases hfs with hb | ⟨hinv, -⟩
      · exact hb.toCounted
      · exact hinv.toCounted
    have hsum : fs.mprod = ((starts fs.log).map (fun j => 2 * (a.work - j))).sum := by
      rw [hc.cost, cost_of_starts a.work _ hk']
    refine ⟨hsum, ?_⟩
    rintro ⟨j, k, hmem⟩
    have hmem' : Event.conv 0 j k 1 ∈ fs.log := hmem
    rcases hfs with hb | ⟨hinv, -⟩
    · obtain ⟨j', k', rest, hlog, hrest⟩ := hb.head
      have hit : fs.iter = 1 := by
        rw [hlog] at hmem'
        rcases List.mem_cons.1 hmem' with h | h
        · injection h with h0
          omega
        · exact (hrest 0 j k 1 h rfl).elim
      have hst : starts fs.log = [0] := by
        obtain ⟨l, hl⟩ := hb.first (by omega)
        have hlen := hb.iters
        rw [hit, hl, List.length_append, List.length_singleton] at hlen
        have : l = [] := List.length_eq_zero.1 (by push_cast at hlen; omega)
        rw [hl, this]
        rfl
      refine ⟨hit, ?_⟩
      show fs.mprod = 2 * a.work
      rw [hsum, hst]
      simp
    · exact (hinv.unconverged 0 j k 1 hmem' rfl).elim

/-- C10 (witness): the run with `tol = 2` converges in its first outer
iteration, which starts at column 0, and reports `ITER = 1` and
`MPROD = 8 = 2 * work`. -/
theorem irlb_mprod_count_witness :
    ((Demo.converging.ret = 0 ∨ Demo.converging.ret = -2) ∧
      ∀ j ∈ starts Demo.converging.st.log, j < (Demo.args 3 2).work) ∧
    starts Demo.converging.st.log = [0] ∧
    Event.conv 0 4 0 1 ∈ Demo.converging.st.log ∧
    Demo.converging.st.MPROD =
      ((starts Demo.converging.st.log).map (fun j => 2 * ((Demo.args 3 2).work - j))).sum ∧
    ((∃ j k, Event.conv 0 j k 1 ∈ Demo.converging.st.log) →
      Demo.converging.st.ITER = 1 ∧ Demo.converging.st.MPROD = 2 * (Demo.args 3 2).work) :=
  ⟨by decide!, by decide!, by decide!,
    irlb_mprod_count Demo.kernels (Demo.args 3 2) Demo.mem Demo.junk (by decide!) (by decide!)⟩

end Irlb
